import Mathlib

/-!
Shallow embedding of the svgdom core (the `src/dom/node.rs` link subsystem,
the `src/attribute/attribute.rs` attribute model and writer fragment, and the
spec-described text-normalization pass) together with proofs of the frozen
claims about it.

Modelling conventions:

* A DOM node is identified by its index in a list of `NodeData` payloads
  (`Doc := List NodeData`); `tree::Node` pointer equality in Rust becomes
  equality of indices here.
* Rust `panic!`/`unwrap` failure is modelled by `Option`: an operation that
  can panic returns `none` exactly when the Rust code would panic.
* The fallible checked entry point returns `Except Error Doc`; the error
  constructors mirror `Error::ElementMustHaveAnId` and
  `Error::ElementCrosslink`.
* The `Attributes` collection and `QName::has_id` come from parts of the
  repository that are not present under `src/`; those definitions are
  modelled from the spec and marked as such in their doc comments.
-/

/-- Node type discriminant, from `NodeType` (`dom` module). -/
inductive NodeType where
  | Root
  | Element
  | Declaration
  | Comment
  | Cdata
  | Text
deriving DecidableEq, Repr

/-- Modelled from the spec: `AttributeId` is a closed enumeration of known
attribute identifiers (the real enumeration lives in the external `svgparser`
crate); only the identifiers exercised by the claims are included. -/
inductive AttributeId where
  | Href
  | Unicode
  | Fill
  | Stroke
  | X
  | Y
deriving DecidableEq, Repr

/-- Modelled from the spec: the canonical textual name of a known attribute
identifier (`AttributeId::name` in the external crate). -/
def AttributeId.name : AttributeId → String
  | .Href => "href"
  | .Unicode => "unicode"
  | .Fill => "fill"
  | .Stroke => "stroke"
  | .X => "x"
  | .Y => "y"

/-- Modelled from the spec: `QName<AttributeId>` (alias `AttributeQName`) is a
qualified name, either a known identifier or an owned string, always paired
with a prefix string. Two qualified names are equal iff prefix and local
identity are equal (structural equality). -/
inductive QName where
  | Id (pfx : String) (aid : AttributeId)
  | Name (pfx : String) (nm : String)
deriving DecidableEq, Repr

/-- Modelled from the spec: `QName::has_id(prefix, id)` is true iff the name
is the known-identifier variant with exactly that prefix and identifier. -/
def QName.hasId (n : QName) (pfx : String) (aid : AttributeId) : Bool :=
  match n with
  | .Id p i => p == pfx && i == aid
  | .Name _ _ => false

/-- Type `AttributeValue` from the spec's closed tagged union (§3); the variants
carrying floating-point payloads are abstracted to `Int` (no claim touches
numeric semantics). `Link`/`FuncLink` hold the identity (index) of the target
node, matching Rust's pointer-equality semantics for `Node`. -/
inductive AttributeValue where
  | Color (r g b : Nat)
  | Length (num : Int) (unit : Nat)
  | LengthList (l : List Int)
  | Number (num : Int)
  | NumberList (l : List Int)
  | Path (dd : String)
  | Points (l : List (Int × Int))
  | PredefValue (v : String)
  | String (s : String)
  | Transform (a b c d e f : Int)
  | ViewBox (x y w h : Int)
  | Link (target : Nat)
  | FuncLink (target : Nat)
deriving DecidableEq, Repr

/-- The target node of a `Link`/`FuncLink` value, `none` for plain values. -/
def linkTarget : AttributeValue → Option Nat
  | .Link t => some t
  | .FuncLink t => some t
  | _ => none

/-- Returns `true` iff the value is `Link`/`FuncLink` (cf. `is_link`/`is_func_link`). -/
def isLinkValue (v : AttributeValue) : Bool :=
  (linkTarget v).isSome

/-- Returns `true` iff the value is a `Link`/`FuncLink` whose target is `b`. -/
def isLinkTo (v : AttributeValue) (b : Nat) : Bool :=
  linkTarget v == some b

/-- Struct `Attribute` from `src/attribute/attribute.rs`: name, value, visibility. -/
structure Attribute where
  name : QName
  value : AttributeValue
  visible : Bool
deriving DecidableEq, Repr

/-- Constructor `Attribute::new`: a visible attribute from a name and a value. -/
def Attribute.new (n : QName) (v : AttributeValue) : Attribute :=
  ⟨n, v, true⟩

/-- Modelled from the spec: `AttributeValue::default_value(id)` returns the
format-defined default value for an identifier, or `none` when the format
defines no default (the real table lives in a source file not present under
`src/`; the entries here are illustrative). -/
def AttributeValue.default_value : AttributeId → Option AttributeValue
  | .Fill => some (.PredefValue "black")
  | .X => some (.Number 0)
  | .Y => some (.Number 0)
  | _ => none

/-- Function `Attribute::default(id)` from `src/attribute/attribute.rs`:
a pre-built attribute with the default value, when one is defined. -/
def Attribute.default (aid : AttributeId) : Option Attribute :=
  match AttributeValue.default_value aid with
  | some v => some (Attribute.new (QName.Id "" aid) v)
  | none => none

/-- Function `Attribute::check_is_default` from `src/attribute/attribute.rs`:
true iff the name is a known identifier whose format default is defined and
equals the held value; `false` for custom string names. -/
def Attribute.check_is_default (a : Attribute) : Bool :=
  match a.name with
  | QName.Id _ aid =>
    match AttributeValue.default_value aid with
    | some v => a.value == v
    | none => false
  | QName.Name _ _ => false

/-- Modelled from the spec: `Attributes::contains(name)` (the collection file
is not under `src/`): name-keyed membership in the ordered list. -/
def attrsContains (attrs : List Attribute) (n : QName) : Bool :=
  attrs.any (fun a => a.name == n)

/-- Modelled from the spec: `Attributes::get_value(name)`: the value of the
first attribute with that name. -/
def attrsGetValue (attrs : List Attribute) (n : QName) : Option AttributeValue :=
  (attrs.find? (fun a => a.name == n)).map (·.value)

/-- Modelled from the spec: `Attributes::insert(attr)` has replace-by-name
semantics: replacement keeps the original position, otherwise append. -/
def attrsInsert (attrs : List Attribute) (a : Attribute) : List Attribute :=
  if attrs.any (fun x => x.name == a.name) then
    attrs.map (fun x => if x.name == a.name then a else x)
  else
    attrs ++ [a]

/-- Modelled from the spec: `Attributes::insert_impl(attr)` appends without a
lookup (only reached after the same name has been removed). -/
def attrsInsertImpl (attrs : List Attribute) (a : Attribute) : List Attribute :=
  attrs ++ [a]

/-- Modelled from the spec: `Attributes::remove_impl(name)` removes the (per
the uniqueness invariant single) attribute with that name; translated as
removal of the first name match. -/
def attrsRemoveImpl (attrs : List Attribute) (n : QName) : List Attribute :=
  attrs.eraseP (fun a => a.name == n)

/-- Struct `NodeData`: the exclusively owned payload of one node (§3 of the spec,
`dom` module). Tree links are irrelevant to the claims and omitted;
`linked_nodes` holds node identities (list indices). -/
structure NodeData where
  node_type : NodeType
  tag_name : String
  id : String
  attributes : List Attribute
  text : String
  linked_nodes : List Nat
deriving DecidableEq, Repr

/-- A document: the nodes, addressed by index (node identity). -/
abbrev Doc := List NodeData

/-- The payload of a freshly created element node. -/
def emptyElement : NodeData :=
  ⟨NodeType.Element, "", "", [], "", []⟩

/-- Read a node's payload (out-of-range indices read as a fresh element;
operations on such indices store nothing, see `setN`). -/
def getN (d : Doc) (i : Nat) : NodeData :=
  d.getD i emptyElement

/-- Write a node's payload (no-op out of range, cf. `List.set`). -/
def setN (d : Doc) (i : Nat) (nd : NodeData) : Doc :=
  d.set i nd

/-- The error surface of the checked mutation entry point
(`Error::ElementMustHaveAnId`, `Error::ElementCrosslink`). -/
inductive Error where
  | ElementMustHaveAnId
  | ElementCrosslink
deriving DecidableEq, Repr

/-- Method `Node::remove_attribute` from `src/dom/node.rs` (lines 531-553): if the
removed attribute held a `Link`/`FuncLink`, first erase this node's entry in
the target's `linked_nodes` (the source finds its position and `unwrap`s —
a panic, modelled as `none`, when the entry is absent), then drop the
attribute. -/
def remove_attribute (d : Doc) (self : Nat) (n : QName) : Option Doc :=
  if !(attrsContains (getN d self).attributes n) then
    some d
  else
    let afterUnlink : Option Doc :=
      match attrsGetValue (getN d self).attributes n with
      | some (.Link t) | some (.FuncLink t) =>
        -- source: `position(|n| n == self).unwrap()` then `remove(index)`
        if self ∈ (getN d t).linked_nodes then
          some (setN d t { getN d t with linked_nodes := (getN d t).linked_nodes.erase self })
        else
          none
      | _ => some d
    afterUnlink.map (fun d1 =>
      setN d1 self { getN d1 self with attributes := attrsRemoveImpl (getN d1 self).attributes n })

/-- Method `Node::set_simple_attribute` from `src/dom/node.rs` (lines 455-463):
remove any existing attribute of the same name (unlinking as needed), then
insert the candidate. -/
def set_simple_attribute (d : Doc) (self : Nat) (a : Attribute) : Option Doc :=
  (remove_attribute d self a.name).map (fun d1 =>
    setN d1 self { getN d1 self with attributes := attrsInsert (getN d1 self).attributes a })

/-- Method `Node::set_link_attribute` from `src/dom/node.rs` (lines 465-497):
reject an empty-id target, then a target with the node's own id, then a
target already present in the node's own `linked_nodes`; otherwise remove the
old attribute of that name, insert the freshly built `Link`/`FuncLink`
attribute, and append this node to the target's `linked_nodes`. -/
def set_link_attribute (d : Doc) (self : Nat) (n : QName) (node : Nat) :
    Option (Except Error Doc) :=
  if (getN d node).id == "" then
    some (.error .ElementMustHaveAnId)
  else if (getN d self).id == (getN d node).id then
    some (.error .ElementCrosslink)
  else if node ∈ (getN d self).linked_nodes then
    some (.error .ElementCrosslink)
  else
    match remove_attribute d self n with
    | none => none
    | some d1 =>
      let a :=
        if n.hasId "xlink" AttributeId.Href then
          Attribute.new n (.Link node)
        else
          Attribute.new n (.FuncLink node)
      let d2 := setN d1 self { getN d1 self with attributes := attrsInsertImpl (getN d1 self).attributes a }
      let d3 := setN d2 node { getN d2 node with linked_nodes := (getN d2 node).linked_nodes ++ [self] }
      some (.ok d3)

/-- Method `Node::set_attribute_checked` from `src/dom/node.rs` (lines 431-453):
link values take the link path, every other value the simple path. -/
def set_attribute_checked (d : Doc) (self : Nat) (a : Attribute) :
    Option (Except Error Doc) :=
  match a.value with
  | .Link t | .FuncLink t => set_link_attribute d self a.name t
  | _ => (set_simple_attribute d self a).map .ok

/-- Conversion `impl From<(N, Node)> for Attribute` from `src/dom/node.rs`
(lines 36-48): attaching a node reference picks `Link` for the
`xlink:href` identifier and `FuncLink` for every other name. -/
def attributeFromNode (n : QName) (node : Nat) : Attribute :=
  if n.hasId "xlink" AttributeId.Href then
    Attribute.new n (AttributeValue.Link node)
  else
    Attribute.new n (AttributeValue.FuncLink node)

/-- A mutation of the link-carrying attribute state: the two entry points the
invariant claim quantifies over. -/
inductive Op where
  | set (self : Nat) (a : Attribute)
  | remove (self : Nat) (n : QName)

/-- Run one operation. A recoverable error from the checked entry point
leaves the document unchanged; a panic (`none`) aborts. -/
def applyOp (d : Doc) : Op → Option Doc
  | .set self a =>
    match set_attribute_checked d self a with
    | some (.ok d2) => some d2
    | some (.error _) => some d
    | none => none
  | .remove self n => remove_attribute d self n

/-- Run a sequence of operations. -/
def applyOps (d : Doc) : List Op → Option Doc
  | [] => some d
  | op :: ops => (applyOp d op).bind (fun d1 => applyOps d1 ops)

/-- Number of attributes in `attrs` holding a `Link`/`FuncLink` to `b`. -/
def countLinksTo (attrs : List Attribute) (b : Nat) : Nat :=
  attrs.countP (fun a => isLinkTo a.value b)

/-- The back-reference invariant, counting form: for all nodes `a`, `b` of
the document, the number of occurrences of `a` in `b`'s `linked_nodes`
equals the number of attributes of `a` holding a `Link`/`FuncLink` to `b`. -/
def linkCountInv (d : Doc) : Prop :=
  ∀ a, a < d.length → ∀ b, b < d.length →
    (getN d b).linked_nodes.count a = countLinksTo (getN d a).attributes b

/-- Attribute names are unique within each node (spec §3: names unique,
inserting a duplicate replaces in place). -/
def namesUniqueInv (d : Doc) : Prop :=
  ∀ i, i < d.length → ((getN d i).attributes.map (·.name)).Nodup

/-- Every stored link target is a node of the document. -/
def targetsInRangeInv (d : Doc) : Prop :=
  ∀ i, i < d.length → ∀ a ∈ (getN d i).attributes, ∀ t, linkTarget a.value = some t → t < d.length

/-- The maintained document invariant. -/
def docInv (d : Doc) : Prop :=
  linkCountInv d ∧ namesUniqueInv d ∧ targetsInRangeInv d

/-- The back-reference invariant, membership form, as the spec states it:
`b`'s `linked_nodes` contains `a` iff some attribute of `a` currently holds
a `Link`/`FuncLink` value referring to `b`. -/
def linkMemInv (d : Doc) : Prop :=
  ∀ a, a < d.length → ∀ b, b < d.length →
    (a ∈ (getN d b).linked_nodes ↔ ∃ x ∈ (getN d a).attributes, isLinkTo x.value b)

/-- Struct `WriteOptions` (spec §6): only the quote choice matters to the claims. -/
structure WriteOptions where
  use_single_quote : Bool
  write_hidden_attributes : Bool
deriving DecidableEq, Repr

/-- Function `write_quote` from `src/attribute/attribute.rs` (lines 155-157). -/
def write_quote (opt : WriteOptions) : String :=
  if opt.use_single_quote then "'" else "\""

/-- Lowercase hexadecimal rendering of a number, as Rust's `{:x}` format
(written here without braces in the comment scanner's way). -/
def toHexLower (n : Nat) : String :=
  (Nat.toDigits 16 n).asString

/-- Rust `str::starts_with` specialized to the two-character entity
opener `&#`, translated to the character level. -/
def startsWithAmpHash (s : String) : Bool :=
  match s.data with
  | c1 :: c2 :: _ => c1 == '&' && c2 == '#'
  | _ => false

/-- Function `write_escaped` from `src/attribute/attribute.rs` (lines 159-171): text
beginning with a literal `&#` passes through unchanged; otherwise each
character becomes the numeric reference `&#x<hex>;`. -/
def write_escaped (uni : String) : String :=
  if startsWithAmpHash uni then uni
  else String.join (uni.data.map (fun c => "&#x" ++ toHexLower c.toNat ++ ";"))

/-- Modelled from the spec: the per-variant textual encoding that
`AttributeValue::write_buf_opt` delegates to (its source file is not under
`src/`). Only the `String` variant's encoding is exercised by any claim;
the remaining encodings are placeholders that no theorem depends on. -/
def valueToText : AttributeValue → String
  | .String s => s
  | .PredefValue v => v
  | .Path dd => dd
  | .Number num => toString num
  | _ => ""

/-- Method `Attribute::write_buf_opt` from `src/attribute/attribute.rs`
(lines 123-153): prefix and `:` when the prefix is non-empty, the local
name, `=`, the opening quote, the value (through the dedicated escape path
for the unprefixed `unicode` identifier holding a `String`; the source only
logs a warning and writes nothing for a non-`String` unicode value), and
the closing quote. The byte buffer is modelled as a `String`. -/
def Attribute.write_buf_opt (a : Attribute) (opt : WriteOptions) : String :=
  let pfxStr :=
    match a.name with
    | QName.Id p _ => if p == "" then "" else p ++ ":"
    | QName.Name p _ => if p == "" then "" else p ++ ":"
  let nameStr :=
    match a.name with
    | QName.Id _ aid => aid.name
    | QName.Name _ nm => nm
  let valStr :=
    if a.name.hasId "" AttributeId.Unicode then
      match a.value with
      | .String s => write_escaped s
      | _ => ""
    else
      valueToText a.value
  pfxStr ++ nameStr ++ "=" ++ write_quote opt ++ valStr ++ write_quote opt

/-- Modelled from the spec: a node of the freshly parsed tree, as consumed by
the text-normalization pass (§4.4); element attributes are raw
name-value string pairs here. -/
inductive XNode where
  | element (tag : String) (attrs : List (String × String)) (children : List XNode)
  | textNode (s : String)
deriving Repr

/-- XML whitespace characters (space, tab, newline, carriage return). -/
def isXmlSpaceChar (c : Char) : Bool :=
  c == ' ' || c == '\t' || c == '\n' || c == '\r'

/-- Collapse runs of whitespace to a single space; the flag records whether
the previous character was part of a whitespace run. -/
def collapseChars : Bool → List Char → List Char
  | _, [] => []
  | prevSpace, c :: cs =>
    if isXmlSpaceChar c then
      if prevSpace then collapseChars true cs
      else ' ' :: collapseChars true cs
    else
      c :: collapseChars false cs

/-- Modelled from the spec (§4.4, collapse mode): runs of whitespace,
newlines included, collapse to a single space. -/
def collapseWhitespace (s : String) : String :=
  (collapseChars false s.data).asString

/-- Drop leading whitespace (boundary trimming at the container start). -/
def trimLeadingSpaces (s : String) : String :=
  (s.data.dropWhile isXmlSpaceChar).asString

/-- Drop trailing whitespace (boundary trimming at the container end). -/
def trimTrailingSpaces (s : String) : String :=
  ((s.data.reverse.dropWhile isXmlSpaceChar).reverse).asString

/-- Modelled from the spec: the effective whitespace mode of an element
(`true` = preserve): an explicit `xml:space` attribute decides, otherwise
the parent's effective mode is inherited (§4.4, glossary). -/
def effMode (inherited : Bool) (attrs : List (String × String)) : Bool :=
  match attrs.lookup "xml:space" with
  | some v => v == "preserve"
  | none => inherited

mutual

/-- Modelled from the spec: run the normalization pass on one node with the
inherited mode (`false`, i.e. collapse, at the root); an element evaluates
its own effective mode from its `xml:space` attribute and normalizes its
children under it. -/
def normalizeNode (inherited : Bool) : XNode → XNode
  | .textNode s => .textNode s
  | .element t a cs => .element t a (normChildren (effMode inherited a) true cs)

/-- Modelled from the spec (§4.4): normalize the children of a container
whose effective mode is `preserve`; in collapse mode a text node collapses
its whitespace, trims its leading boundary when it starts the container and
its trailing boundary when it ends it, and is dropped when it becomes
empty; child elements re-evaluate their own mode and recurse. -/
def normChildren (preserve : Bool) (atStart : Bool) : List XNode → List XNode
  | [] => []
  | .textNode s :: xs =>
    if preserve then .textNode s :: normChildren preserve false xs
    else
      let s1 := collapseWhitespace s
      let s2 := if atStart then trimLeadingSpaces s1 else s1
      let s3 := if xs.isEmpty then trimTrailingSpaces s2 else s2
      if s3 == "" then normChildren preserve false xs
      else .textNode s3 :: normChildren preserve false xs
  | .element t a cs :: xs =>
    normalizeNode preserve (.element t a cs) :: normChildren preserve false xs

end

/-- Serialize raw string attributes (double quotes; C9 uses none). -/
def serializeAttrs (attrs : List (String × String)) : String :=
  String.join (attrs.map (fun p => " " ++ p.1 ++ "=\"" ++ p.2 ++ "\""))

mutual

/-- Modelled from the spec (§4.5, §6): serialize a node; an element with no
children (hence no text) uses the self-closing form. -/
def serializeNode : XNode → String
  | .textNode s => s
  | .element t a cs =>
    if cs.isEmpty then "<" ++ t ++ serializeAttrs a ++ "/>"
    else "<" ++ t ++ serializeAttrs a ++ ">" ++ serializeList cs ++ "</" ++ t ++ ">"

/-- Serialize a list of sibling nodes in order. -/
def serializeList : List XNode → String
  | [] => ""
  | x :: xs => serializeNode x ++ serializeList xs

end

instance : DecidableEq (Except Error Doc)
  | .ok a, .ok b =>
    if h : a = b then .isTrue (h ▸ rfl) else .isFalse (fun hc => h (Except.ok.inj hc))
  | .ok _, .error _ => .isFalse (fun hc => Except.noConfusion hc)
  | .error _, .ok _ => .isFalse (fun hc => Except.noConfusion hc)
  | .error a, .error b =>
    if h : a = b then .isTrue (h ▸ rfl) else .isFalse (fun hc => h (Except.error.inj hc))

instance : DecidablePred linkCountInv := fun d => by
  unfold linkCountInv; infer_instance

instance : DecidablePred namesUniqueInv := fun d => by
  unfold namesUniqueInv; infer_instance

instance : DecidablePred targetsInRangeInv := fun d => by
  unfold targetsInRangeInv; infer_instance

instance : DecidablePred docInv := fun d => by
  unfold docInv; infer_instance

instance : DecidablePred linkMemInv := fun d => by
  unfold linkMemInv; infer_instance

theorem length_setN (d : Doc) (i : Nat) (x : NodeData) : (setN d i x).length = d.length :=
  List.length_set d i x

theorem getN_oob {d : Doc} {i : Nat} (h : d.length ≤ i) : getN d i = emptyElement := by
  unfold getN
  rw [List.getD_eq_getElem?_getD, List.getElem?_eq_none h]
  rfl

theorem setN_oob {d : Doc} {i : Nat} (x : NodeData) (h : d.length ≤ i) : setN d i x = d :=
  List.set_eq_of_length_le h

theorem getN_setN_self {d : Doc} {i : Nat} (x : NodeData) (h : i < d.length) :
    getN (setN d i x) i = x := by
  unfold getN setN
  rw [List.getD_eq_getElem?_getD, List.getElem?_set_self h]
  rfl

theorem getN_setN_ne {d : Doc} {i j : Nat} (x : NodeData) (h : i ≠ j) :
    getN (setN d i x) j = getN d j := by
  unfold getN setN
  rw [List.getD_eq_getElem?_getD, List.getElem?_set_ne h, ← List.getD_eq_getElem?_getD]

theorem attrsContains_eq_isSome_find (attrs : List Attribute) (n : QName) :
    attrsContains attrs n = (attrs.find? (fun a => a.name == n)).isSome := by
  unfold attrsContains
  rw [Bool.eq_iff_iff, List.any_eq_true, List.find?_isSome]

theorem attrsGetValue_eq_none {attrs : List Attribute} {n : QName}
    (h : attrsContains attrs n = false) : attrsGetValue attrs n = none := by
  rw [attrsContains_eq_isSome_find] at h
  unfold attrsGetValue
  cases hf : attrs.find? (fun a => a.name == n) with
  | none => rfl
  | some e => rw [hf] at h; simp at h

theorem attrsContains_false_oob {d : Doc} {i : Nat} (h : d.length ≤ i) (n : QName) :
    attrsContains (getN d i).attributes n = false := by
  rw [getN_oob h]
  rfl

theorem mem_of_find?_name {attrs : List Attribute} {n : QName} {e : Attribute}
    (h : attrs.find? (fun a => a.name == n) = some e) : e ∈ attrs :=
  List.mem_of_find?_eq_some h

theorem name_of_find?_name {attrs : List Attribute} {n : QName} {e : Attribute}
    (h : attrs.find? (fun a => a.name == n) = some e) : e.name = n := by
  have := List.find?_some h
  simpa using this

theorem countLinksTo_removeImpl {attrs : List Attribute} {n : QName} {e : Attribute}
    (hfind : attrs.find? (fun a => a.name == n) = some e) (b : Nat) :
    countLinksTo attrs b =
      countLinksTo (attrsRemoveImpl attrs n) b + (if isLinkTo e.value b then 1 else 0) := by
  induction attrs with
  | nil => simp at hfind
  | cons a as ih =>
    unfold countLinksTo attrsRemoveImpl at *
    by_cases hna : (a.name == n) = true
    · rw [List.find?_cons_of_pos (p := fun x : Attribute => x.name == n) _ hna] at hfind
      simp only [Option.some.injEq] at hfind
      subst hfind
      rw [List.eraseP_cons_of_pos (p := fun x : Attribute => x.name == n) hna, List.countP_cons]
    · rw [List.find?_cons_of_neg (p := fun x : Attribute => x.name == n) _ hna] at hfind
      rw [List.eraseP_cons_of_neg (p := fun x : Attribute => x.name == n) hna, List.countP_cons,
        List.countP_cons, ih hfind]
      omega

theorem removeImpl_not_contains {attrs : List Attribute} {n : QName}
    (hnodup : (attrs.map (·.name)).Nodup) :
    attrsContains (attrsRemoveImpl attrs n) n = false := by
  induction attrs with
  | nil => rfl
  | cons a as ih =>
    rw [List.map_cons, List.nodup_cons] at hnodup
    unfold attrsRemoveImpl at *
    by_cases hna : (a.name == n) = true
    · rw [List.eraseP_cons_of_pos (p := fun x : Attribute => x.name == n) hna]
      rw [beq_iff_eq] at hna
      subst hna
      unfold attrsContains
      rw [Bool.eq_false_iff]
      intro hany
      rw [List.any_eq_true] at hany
      obtain ⟨x, hx, hxn⟩ := hany
      rw [beq_iff_eq] at hxn
      exact hnodup.1 (hxn ▸ List.mem_map_of_mem (·.name) hx)
    · rw [List.eraseP_cons_of_neg (p := fun x : Attribute => x.name == n) hna]
      rw [Bool.not_eq_true] at hna
      unfold attrsContains
      rw [List.any_cons, hna, Bool.false_or]
      exact ih hnodup.2

theorem nodup_removeImpl {attrs : List Attribute} (n : QName)
    (hnodup : (attrs.map (·.name)).Nodup) :
    ((attrsRemoveImpl attrs n).map (·.name)).Nodup :=
  hnodup.sublist ((List.eraseP_sublist attrs).map (·.name))

theorem mem_removeImpl {attrs : List Attribute} {n : QName} {a : Attribute}
    (h : a ∈ attrsRemoveImpl attrs n) : a ∈ attrs :=
  (List.eraseP_sublist attrs).mem h

theorem attrsInsert_of_not_contains {attrs : List Attribute} {a : Attribute}
    (h : attrsContains attrs a.name = false) : attrsInsert attrs a = attrs ++ [a] := by
  unfold attrsInsert
  unfold attrsContains at h
  rw [h]
  rfl

theorem not_mem_name_of_not_contains {attrs : List Attribute} {n : QName}
    (h : attrsContains attrs n = false) : n ∉ attrs.map (·.name) := by
  unfold attrsContains at h
  rw [Bool.eq_false_iff] at h
  intro hmem
  apply h
  rw [List.any_eq_true]
  obtain ⟨x, hx, hxe⟩ := List.mem_map.mp hmem
  exact ⟨x, hx, by simp [hxe]⟩

theorem nodup_append_singleton {attrs : List Attribute} {a : Attribute}
    (hnodup : (attrs.map (·.name)).Nodup) (h : attrsContains attrs a.name = false) :
    (((attrs ++ [a]).map (·.name))).Nodup := by
  rw [List.map_append, List.nodup_append]
  refine ⟨hnodup, List.nodup_singleton _, ?_⟩
  intro x hx hx1
  simp only [List.map_cons, List.map_nil, List.mem_singleton] at hx1
  subst hx1
  exact not_mem_name_of_not_contains h hx

theorem countLinksTo_append (attrs : List Attribute) (a : Attribute) (b : Nat) :
    countLinksTo (attrs ++ [a]) b =
      countLinksTo attrs b + (if isLinkTo a.value b then 1 else 0) := by
  unfold countLinksTo
  rw [List.countP_append]
  simp [List.countP_cons]

theorem remove_attribute_reduce (d : Doc) (self : Nat) (n : QName) :
    remove_attribute d self n =
      if attrsContains (getN d self).attributes n then
        (match (attrsGetValue (getN d self).attributes n).bind linkTarget with
         | some t =>
           if self ∈ (getN d t).linked_nodes then
             some (setN d t { getN d t with linked_nodes := (getN d t).linked_nodes.erase self })
           else none
         | none => some d).map (fun d1 =>
            setN d1 self { getN d1 self with attributes := attrsRemoveImpl (getN d1 self).attributes n })
      else some d := by
  unfold remove_attribute
  cases hc : attrsContains (getN d self).attributes n with
  | false => rfl
  | true =>
    cases hv : attrsGetValue (getN d self).attributes n with
    | none => rfl
    | some v => cases v <;> rfl

theorem getN_setN (d : Doc) (i j : Nat) (x : NodeData) :
    getN (setN d i x) j = if j = i ∧ i < d.length then x else getN d j := by
  by_cases hj : j = i
  · subst hj
    by_cases hi : j < d.length
    · rw [getN_setN_self x hi, if_pos ⟨rfl, hi⟩]
    · rw [setN_oob x (Nat.le_of_not_lt hi), if_neg (fun h => hi h.2)]
  · rw [getN_setN_ne x (fun h => hj h.symm), if_neg (fun h => hj h.1)]

theorem countLinksTo_pos {attrs : List Attribute} {e : Attribute} {t : Nat}
    (he : e ∈ attrs) (ht : linkTarget e.value = some t) :
    0 < countLinksTo attrs t := by
  unfold countLinksTo
  rw [List.countP_pos_iff]
  exact ⟨e, he, by unfold isLinkTo; rw [ht]; simp⟩

theorem remove_pres {d : Doc} (hinv : docInv d) (self : Nat) (n : QName) :
    ∃ d2, remove_attribute d self n = some d2 ∧ docInv d2 ∧ d2.length = d.length ∧
      attrsContains (getN d2 self).attributes n = false ∧
      (∀ j, j ≠ self → (getN d2 j).attributes = (getN d j).attributes) ∧
      (∀ v t, attrsGetValue (getN d self).attributes n = some v → linkTarget v = some t →
        (getN d2 t).linked_nodes.count self + 1 = (getN d t).linked_nodes.count self) := by
  obtain ⟨hcount, hnodup, hrange⟩ := hinv
  cases hc : attrsContains (getN d self).attributes n with
  | false =>
    refine ⟨d, ?_, ⟨hcount, hnodup, hrange⟩, rfl, hc, fun j _ => rfl, ?_⟩
    · rw [remove_attribute_reduce, hc]
      rfl
    · intro v t hv
      rw [attrsGetValue_eq_none hc] at hv
      cases hv
  | true =>
    have hself : self < d.length := by
      by_contra h
      rw [attrsContains_false_oob (Nat.le_of_not_lt h)] at hc
      cases hc
    have hfs : ((getN d self).attributes.find? (fun a => a.name == n)).isSome := by
      rw [← attrsContains_eq_isSome_find, hc]
    obtain ⟨e, hfind⟩ := Option.isSome_iff_exists.mp hfs
    have hgv : attrsGetValue (getN d self).attributes n = some e.value := by
      unfold attrsGetValue
      rw [hfind]
      rfl
    have hmeme : e ∈ (getN d self).attributes := List.mem_of_find?_eq_some hfind
    have hnodupSelf := hnodup self hself
    cases hlt : linkTarget e.value with
    | none =>
      refine ⟨setN d self { getN d self with
          attributes := attrsRemoveImpl (getN d self).attributes n }, ?_, ?_, ?_, ?_, ?_, ?_⟩
      · rw [remove_attribute_reduce, hc]
        simp only [if_true, hgv, Option.some_bind, hlt, Option.map_some']
      · have hat : ∀ j, (getN (setN d self { getN d self with
            attributes := attrsRemoveImpl (getN d self).attributes n }) j).attributes =
            if j = self then attrsRemoveImpl (getN d self).attributes n
            else (getN d j).attributes := by
          intro j
          rw [getN_setN]
          by_cases hj : j = self
          · rw [if_pos ⟨hj, hself⟩, if_pos hj]
          · rw [if_neg (fun h => hj h.1), if_neg hj]
        have hln : ∀ j, (getN (setN d self { getN d self with
            attributes := attrsRemoveImpl (getN d self).attributes n }) j).linked_nodes =
            (getN d j).linked_nodes := by
          intro j
          rw [getN_setN]
          by_cases hj : j = self
          · rw [if_pos ⟨hj, hself⟩, hj]
          · rw [if_neg (fun h => hj h.1)]
        refine ⟨?_, ?_, ?_⟩
        · intro a ha b hb
          rw [length_setN] at ha hb
          rw [hat, hln]
          by_cases haq : a = self
          · rw [if_pos haq, haq]
            have hcr := countLinksTo_removeImpl hfind b
            have hz : isLinkTo e.value b = false := by
              unfold isLinkTo
              rw [hlt]
              rfl
            rw [hz] at hcr
            simp only [Bool.false_eq_true, if_false] at hcr
            rw [← hcount self hself b hb] at hcr
            omega
          · rw [if_neg haq]
            exact hcount a ha b hb
        · intro i hi
          rw [length_setN] at hi
          rw [hat]
          by_cases hiq : i = self
          · rw [if_pos hiq]
            exact nodup_removeImpl n hnodupSelf
          · rw [if_neg hiq]
            exact hnodup i hi
        · intro i hi a hmem t hta
          rw [length_setN] at hi
          rw [length_setN]
          rw [hat] at hmem
          by_cases hiq : i = self
          · rw [if_pos hiq] at hmem
            exact hrange self hself a (mem_removeImpl hmem) t hta
          · rw [if_neg hiq] at hmem
            exact hrange i hi a hmem t hta
      · exact length_setN d self _
      · rw [getN_setN, if_pos ⟨rfl, hself⟩]
        exact removeImpl_not_contains hnodupSelf
      · intro j hj
        rw [getN_setN, if_neg (fun h => hj h.1)]
      · intro v t hv hvt
        rw [hgv] at hv
        injection hv with hv
        rw [← hv, hlt] at hvt
        cases hvt
    | some t =>
      have ht : t < d.length := hrange self hself e hmeme t hlt
      have hposP : 0 < countLinksTo (getN d self).attributes t := countLinksTo_pos hmeme hlt
      have hposC : 0 < (getN d t).linked_nodes.count self := by
        rw [hcount self hself t ht]
        exact hposP
      have hmem : self ∈ (getN d t).linked_nodes := List.count_pos_iff.mp hposC
      set d1 := setN d t { getN d t with
          linked_nodes := (getN d t).linked_nodes.erase self } with hd1
      refine ⟨setN d1 self { getN d1 self with
          attributes := attrsRemoveImpl (getN d1 self).attributes n }, ?_, ?_⟩
      · rw [remove_attribute_reduce, hc]
        simp only [if_true, hgv, Option.some_bind, hlt, if_pos hmem, Option.map_some']
      ·
        have hln1 : ∀ j, (getN d1 j).linked_nodes =
            if j = t then (getN d t).linked_nodes.erase self else (getN d j).linked_nodes := by
          intro j
          rw [hd1, getN_setN]
          by_cases hj : j = t
          · rw [if_pos ⟨hj, ht⟩, if_pos hj]
          · rw [if_neg (fun h => hj h.1), if_neg hj]
        have hat1 : ∀ j, (getN d1 j).attributes = (getN d j).attributes := by
          intro j
          rw [hd1, getN_setN]
          by_cases hj : j = t
          · rw [if_pos ⟨hj, ht⟩, hj]
          · rw [if_neg (fun h => hj h.1)]
        have hlen1 : d1.length = d.length := length_setN d t _
        have hself1 : self < d1.length := by rw [hlen1]; exact hself
        set d2 := setN d1 self { getN d1 self with
          attributes := attrsRemoveImpl (getN d1 self).attributes n } with hd2
        have hat2 : ∀ j, (getN d2 j).attributes =
            if j = self then attrsRemoveImpl (getN d self).attributes n
            else (getN d j).attributes := by
          intro j
          rw [hd2, getN_setN]
          by_cases hj : j = self
          · rw [if_pos ⟨hj, hself1⟩, if_pos hj]
            simp only [hat1]
          · rw [if_neg (fun h => hj h.1), if_neg hj, hat1]
        have hln2 : ∀ j, (getN d2 j).linked_nodes =
            if j = t then (getN d t).linked_nodes.erase self else (getN d j).linked_nodes := by
          intro j
          rw [hd2, getN_setN]
          by_cases hj : j = self
          · rw [if_pos ⟨hj, hself1⟩]
            simp only [hln1, hj]
          · rw [if_neg (fun h => hj h.1), hln1]
        have hlen2 : d2.length = d.length := by
          rw [hd2, length_setN, hlen1]
        refine ⟨⟨?_, ?_, ?_⟩, hlen2, ?_, ?_, ?_⟩
        · intro a ha b hb
          rw [hlen2] at ha hb
          rw [hat2, hln2]
          by_cases haq : a = self
          · rw [if_pos haq, haq]
            by_cases hbq : b = t
            · rw [if_pos hbq, hbq]
              have hcr := countLinksTo_removeImpl hfind t
              have he1 : isLinkTo e.value t = true := by
                unfold isLinkTo
                rw [hlt]
                exact beq_self_eq_true _
              rw [he1, if_pos rfl] at hcr
              have hco := hcount self hself t ht
              rw [List.count_erase_self]
              omega
            · rw [if_neg hbq]
              have hcr := countLinksTo_removeImpl hfind b
              have he0 : isLinkTo e.value b = false := by
                unfold isLinkTo
                rw [hlt]
                rw [beq_eq_false_iff_ne]
                intro h
                exact hbq (Option.some.inj h).symm
              rw [he0] at hcr
              simp only [Bool.false_eq_true, if_false] at hcr
              have hco := hcount self hself b hb
              omega
          · rw [if_neg haq]
            by_cases hbq : b = t
            · rw [if_pos hbq, hbq, List.count_erase_of_ne haq]
              exact hcount a ha t ht
            · rw [if_neg hbq]
              exact hcount a ha b hb
        · intro i hi
          rw [hlen2] at hi
          rw [hat2]
          by_cases hiq : i = self
          · rw [if_pos hiq]
            exact nodup_removeImpl n hnodupSelf
          · rw [if_neg hiq]
            exact hnodup i hi
        · intro i hi a hmem2 tt htt
          rw [hlen2] at hi
          rw [hlen2]
          rw [hat2] at hmem2
          by_cases hiq : i = self
          · rw [if_pos hiq] at hmem2
            exact hrange self hself a (mem_removeImpl hmem2) tt htt
          · rw [if_neg hiq] at hmem2
            exact hrange i hi a hmem2 tt htt
        · rw [hat2, if_pos rfl]
          exact removeImpl_not_contains hnodupSelf
        · intro j hj
          rw [hat2, if_neg hj]
        · intro v tt hv hvt
          rw [hgv] at hv
          injection hv with hv
          rw [← hv, hlt] at hvt
          injection hvt with hvt
          subst hvt
          rw [hln2, if_pos rfl, List.count_erase_self]
          omega

theorem attrsInsertImpl_eq (attrs : List Attribute) (a : Attribute) :
    attrsInsertImpl attrs a = attrs ++ [a] := rfl

theorem isLinkTo_false_of_not_link {v : AttributeValue} (h : isLinkValue v = false) (b : Nat) :
    isLinkTo v b = false := by
  unfold isLinkValue at h
  unfold isLinkTo
  cases hl : linkTarget v with
  | none => rfl
  | some t => rw [hl] at h; cases h

theorem count_append_single (l : List Nat) (x y : Nat) :
    (l ++ [y]).count x = l.count x + if x = y then 1 else 0 := by
  rw [List.count_append]
  by_cases h : x = y
  · subst h
    simp
  · simp [h, List.count_eq_zero, List.mem_singleton]

theorem attrs_update_facts (d : Doc) (i : Nat) (newAttrs : List Attribute) :
    (∀ j, (getN (setN d i { getN d i with attributes := newAttrs }) j).attributes =
      if j = i ∧ i < d.length then newAttrs else (getN d j).attributes) ∧
    (∀ j, (getN (setN d i { getN d i with attributes := newAttrs }) j).linked_nodes =
      (getN d j).linked_nodes) := by
  constructor <;> intro j <;> rw [getN_setN] <;> by_cases hj : j = i ∧ i < d.length
  · rw [if_pos hj, if_pos hj]
  · rw [if_neg hj, if_neg hj]
  · rw [if_pos hj]
    rw [hj.1]
  · rw [if_neg hj]

theorem ln_update_facts (d : Doc) (i : Nat) (newLn : List Nat) :
    (∀ j, (getN (setN d i { getN d i with linked_nodes := newLn }) j).linked_nodes =
      if j = i ∧ i < d.length then newLn else (getN d j).linked_nodes) ∧
    (∀ j, (getN (setN d i { getN d i with linked_nodes := newLn }) j).attributes =
      (getN d j).attributes) := by
  constructor <;> intro j <;> rw [getN_setN] <;> by_cases hj : j = i ∧ i < d.length
  · rw [if_pos hj, if_pos hj]
  · rw [if_neg hj, if_neg hj]
  · rw [if_pos hj]
    rw [hj.1]
  · rw [if_neg hj]

theorem set_simple_pres {d : Doc} (hinv : docInv d) (self : Nat) {a : Attribute}
    (hnl : isLinkValue a.value = false) :
    ∃ d2, set_simple_attribute d self a = some d2 ∧ docInv d2 ∧ d2.length = d.length := by
  obtain ⟨d1, heq, hinv1, hlen1, hnc1, _, _⟩ := remove_pres hinv self a.name
  refine ⟨_, by unfold set_simple_attribute; rw [heq]; rfl, ?_, by rw [length_setN, hlen1]⟩
  beta_reduce
  rw [attrsInsert_of_not_contains hnc1]
  obtain ⟨hc1, hn1, hr1⟩ := hinv1
  obtain ⟨hat, hln⟩ := attrs_update_facts d1 self ((getN d1 self).attributes ++ [a])
  refine ⟨?_, ?_, ?_⟩
  · intro x hx b hb
    rw [length_setN] at hx hb
    rw [hat, hln]
    by_cases hxq : x = self ∧ self < d1.length
    · rw [if_pos hxq, countLinksTo_append, isLinkTo_false_of_not_link hnl]
      simp only [Bool.false_eq_true, if_false, Nat.add_zero]
      rw [hxq.1]
      exact hc1 self hxq.2 b hb
    · rw [if_neg hxq]
      exact hc1 x hx b hb
  · intro i hi
    rw [length_setN] at hi
    rw [hat]
    by_cases hiq : i = self ∧ self < d1.length
    · rw [if_pos hiq]
      exact nodup_append_singleton (hn1 self hiq.2) hnc1
    · rw [if_neg hiq]
      exact hn1 i hi
  · intro i hi x hm t htt
    rw [length_setN] at hi ⊢
    rw [hat] at hm
    by_cases hiq : i = self ∧ self < d1.length
    · rw [if_pos hiq] at hm
      rcases List.mem_append.mp hm with hmm | hmm
      · exact hr1 self hiq.2 x hmm t htt
      · rw [List.mem_singleton] at hmm
        subst hmm
        unfold isLinkValue at hnl
        rw [htt] at hnl
        simp at hnl
    · rw [if_neg hiq] at hm
      exact hr1 i hi x hm t htt

theorem link_insert_pres {d1 : Doc} (hinv1 : docInv d1) (self node : Nat) (aNew : Attribute)
    (hval : linkTarget aNew.value = some node) (hnode : node < d1.length)
    (hnc : attrsContains (getN d1 self).attributes aNew.name = false) :
    docInv (setN (setN d1 self { getN d1 self with
        attributes := attrsInsertImpl (getN d1 self).attributes aNew }) node
      { getN (setN d1 self { getN d1 self with
          attributes := attrsInsertImpl (getN d1 self).attributes aNew }) node with
        linked_nodes := (getN (setN d1 self { getN d1 self with
          attributes := attrsInsertImpl (getN d1 self).attributes aNew }) node).linked_nodes
            ++ [self] }) ∧
    (setN (setN d1 self { getN d1 self with
        attributes := attrsInsertImpl (getN d1 self).attributes aNew }) node
      { getN (setN d1 self { getN d1 self with
          attributes := attrsInsertImpl (getN d1 self).attributes aNew }) node with
        linked_nodes := (getN (setN d1 self { getN d1 self with
          attributes := attrsInsertImpl (getN d1 self).attributes aNew }) node).linked_nodes
            ++ [self] }).length = d1.length := by
  obtain ⟨hc1, hn1, hr1⟩ := hinv1
  rw [attrsInsertImpl_eq]
  set e1 := setN d1 self { getN d1 self with
    attributes := (getN d1 self).attributes ++ [aNew] } with he1
  obtain ⟨hatA, hlnA⟩ := attrs_update_facts d1 self ((getN d1 self).attributes ++ [aNew])
  rw [← he1] at hatA hlnA
  obtain ⟨hlnB, hatB⟩ := ln_update_facts e1 node ((getN e1 node).linked_nodes ++ [self])
  have hlen1 : e1.length = d1.length := by rw [he1, length_setN]
  have hnodeE : node < e1.length := by rw [hlen1]; exact hnode
  have hlnF : ∀ j, (getN (setN e1 node { getN e1 node with
      linked_nodes := (getN e1 node).linked_nodes ++ [self] }) j).linked_nodes =
      if j = node then (getN d1 node).linked_nodes ++ [self]
      else (getN d1 j).linked_nodes := by
    intro j
    rw [hlnB]
    by_cases hj : j = node
    · rw [if_pos ⟨hj, hnodeE⟩, if_pos hj, hlnA]
    · rw [if_neg (fun h => hj h.1), if_neg hj, hlnA]
  have hatF : ∀ j, (getN (setN e1 node { getN e1 node with
      linked_nodes := (getN e1 node).linked_nodes ++ [self] }) j).attributes =
      if j = self ∧ self < d1.length then (getN d1 self).attributes ++ [aNew]
      else (getN d1 j).attributes := by
    intro j
    rw [hatB, hatA]
  have hlenF : (setN e1 node { getN e1 node with
      linked_nodes := (getN e1 node).linked_nodes ++ [self] }).length = d1.length := by
    rw [length_setN, hlen1]
  refine ⟨⟨?_, ?_, ?_⟩, hlenF⟩
  · intro x hx b hb
    rw [hlenF] at hx hb
    rw [hatF, hlnF]
    by_cases hxq : x = self
    · have hxs : self < d1.length := hxq ▸ hx
      have hcx : x = self ∧ self < List.length d1 := ⟨hxq, hxs⟩
      rw [if_pos hcx, hxq]
      by_cases hbq : b = node
      · rw [if_pos hbq, hbq, count_append_single, if_pos rfl, countLinksTo_append]
        have he1b : isLinkTo aNew.value node = true := by
          unfold isLinkTo
          rw [hval]
          exact beq_self_eq_true _
        rw [he1b, if_pos rfl]
        rw [hc1 self hxs node hnode]
      · rw [if_neg hbq, countLinksTo_append]
        have he0 : isLinkTo aNew.value b = false := by
          unfold isLinkTo
          rw [hval, beq_eq_false_iff_ne]
          intro h
          exact hbq (Option.some.inj h).symm
        rw [he0]
        simp only [Bool.false_eq_true, if_false, Nat.add_zero]
        exact hc1 self hxs b hb
    · have hcx : ¬(x = self ∧ self < List.length d1) := fun h => hxq h.1
      rw [if_neg hcx]
      by_cases hbq : b = node
      · rw [if_pos hbq, hbq, count_append_single, if_neg hxq, Nat.add_zero]
        exact hc1 x hx node hnode
      · rw [if_neg hbq]
        exact hc1 x hx b hb
  · intro i hi
    rw [hlenF] at hi
    rw [hatF]
    by_cases hiq : i = self ∧ self < d1.length
    · rw [if_pos hiq]
      exact nodup_append_singleton (hn1 self hiq.2) hnc
    · rw [if_neg hiq]
      exact hn1 i hi
  · intro i hi x hm t htt
    rw [hlenF] at hi ⊢
    rw [hatF] at hm
    by_cases hiq : i = self ∧ self < d1.length
    · rw [if_pos hiq] at hm
      rcases List.mem_append.mp hm with hmm | hmm
      · exact hr1 self hiq.2 x hmm t htt
      · rw [List.mem_singleton] at hmm
        subst hmm
        rw [hval] at htt
        injection htt with htt
        rw [← htt]
        exact hnode
    · rw [if_neg hiq] at hm
      exact hr1 i hi x hm t htt

theorem set_link_pres {d : Doc} (hinv : docInv d) (self : Nat) (n : QName) (node : Nat) :
    ∃ r, set_link_attribute d self n node = some r ∧
      ∀ d3, r = Except.ok d3 → docInv d3 ∧ d3.length = d.length := by
  unfold set_link_attribute
  by_cases h1 : ((getN d node).id == "") = true
  · rw [if_pos h1]
    exact ⟨.error .ElementMustHaveAnId, rfl, fun d3 h => Except.noConfusion h⟩
  · rw [if_neg h1]
    by_cases h2 : ((getN d self).id == (getN d node).id) = true
    · rw [if_pos h2]
      exact ⟨.error .ElementCrosslink, rfl, fun d3 h => Except.noConfusion h⟩
    · rw [if_neg h2]
      by_cases h3 : node ∈ (getN d self).linked_nodes
      · rw [if_pos h3]
        exact ⟨.error .ElementCrosslink, rfl, fun d3 h => Except.noConfusion h⟩
      · rw [if_neg h3]
        have hnode : node < d.length := by
          by_contra hh
          rw [getN_oob (Nat.le_of_not_lt hh)] at h1
          exact h1 rfl
        obtain ⟨d1, heq, hinv1, hlen1, hnc1, _, _⟩ := remove_pres hinv self n
        rw [heq]
        have hnode1 : node < d1.length := by rw [hlen1]; exact hnode
        by_cases h4 : n.hasId "xlink" AttributeId.Href = true
        · rw [if_pos h4]
          refine ⟨_, rfl, ?_⟩
          intro d3 h
          injection h with h
          subst h
          obtain ⟨hok, hlen⟩ := link_insert_pres hinv1 self node
            (Attribute.new n (AttributeValue.Link node)) rfl hnode1 hnc1
          exact ⟨hok, by rw [← hlen1]; exact hlen⟩
        · rw [if_neg h4]
          refine ⟨_, rfl, ?_⟩
          intro d3 h
          injection h with h
          subst h
          obtain ⟨hok, hlen⟩ := link_insert_pres hinv1 self node
            (Attribute.new n (AttributeValue.FuncLink node)) rfl hnode1 hnc1
          exact ⟨hok, by rw [← hlen1]; exact hlen⟩

theorem set_checked_pres {d : Doc} (hinv : docInv d) (self : Nat) (a : Attribute) :
    ∃ r, set_attribute_checked d self a = some r ∧
      ∀ d2, r = Except.ok d2 → docInv d2 ∧ d2.length = d.length := by
  unfold set_attribute_checked
  cases hv : a.value
  case Link t => exact set_link_pres hinv self a.name t
  case FuncLink t => exact set_link_pres hinv self a.name t
  all_goals
    obtain ⟨d2, heq, hinv2, hlen2⟩ := set_simple_pres hinv self (a := a)
      (by rw [isLinkValue, hv]; rfl)
  all_goals rw [heq]
  all_goals exact ⟨.ok d2, rfl, fun d3 h => by injection h with h; subst h; exact ⟨hinv2, hlen2⟩⟩

theorem applyOp_pres {d : Doc} (hinv : docInv d) (op : Op) :
    ∃ d2, applyOp d op = some d2 ∧ docInv d2 ∧ d2.length = d.length := by
  cases op with
  | set self a =>
    obtain ⟨r, heq, hok⟩ := set_checked_pres hinv self a
    simp only [applyOp]
    rw [heq]
    cases r with
    | ok d2 => exact ⟨d2, rfl, hok d2 rfl⟩
    | error e => exact ⟨d, rfl, hinv, rfl⟩
  | remove self nm =>
    obtain ⟨d2, heq, hinv2, hlen2, _, _, _⟩ := remove_pres hinv self nm
    exact ⟨d2, heq, hinv2, hlen2⟩

theorem applyOps_pres {d : Doc} (hinv : docInv d) (ops : List Op) :
    ∃ d2, applyOps d ops = some d2 ∧ docInv d2 ∧ d2.length = d.length := by
  induction ops generalizing d with
  | nil => exact ⟨d, rfl, hinv, rfl⟩
  | cons op ops ih =>
    obtain ⟨d1, h1, hinv1, hlen1⟩ := applyOp_pres hinv op
    obtain ⟨d2, h2, hinv2, hlen2⟩ := ih hinv1
    refine ⟨d2, ?_, hinv2, by rw [hlen2, hlen1]⟩
    unfold applyOps
    rw [h1]
    exact h2

theorem linkMemInv_of_docInv {d : Doc} (hinv : docInv d) : linkMemInv d := by
  intro a ha b hb
  have hc := hinv.1 a ha b hb
  rw [← List.count_pos_iff (a := a), hc]
  unfold countLinksTo
  exact List.countP_pos_iff

theorem applyOp_of_error {d : Doc} {self : Nat} {a : Attribute} {e : Error}
    (h : set_attribute_checked d self a = some (Except.error e)) :
    applyOp d (Op.set self a) = some d := by
  simp only [applyOp]
  rw [h]

theorem set_attribute_checked_link {d : Doc} {self : Nat} {a : Attribute} {t : Nat}
    (hval : a.value = AttributeValue.Link t ∨ a.value = AttributeValue.FuncLink t) :
    set_attribute_checked d self a = set_link_attribute d self a.name t := by
  unfold set_attribute_checked
  rcases hval with h | h <;> rw [h]

/-- C2 (amended): for an element node with a NON-EMPTY id, setting a link
attribute on it whose target is the node itself fails with
`ElementCrosslink` and leaves the document unchanged. (The unamended claim
fails when the node's id is empty: the empty-id check fires first, see the
counterexample.) -/
theorem c2_no_self_link {d : Doc} {self : Nat} {a : Attribute}
    (hid : (getN d self).id ≠ "")
    (hval : a.value = AttributeValue.Link self ∨ a.value = AttributeValue.FuncLink self) :
    set_attribute_checked d self a = some (Except.error Error.ElementCrosslink) ∧
    applyOp d (Op.set self a) = some d := by
  have hchk : set_attribute_checked d self a = some (Except.error Error.ElementCrosslink) := by
    rw [set_attribute_checked_link hval]
    unfold set_link_attribute
    rw [if_neg (fun h => hid (beq_iff_eq.mp h)), if_pos (beq_self_eq_true (getN d self).id)]
  exact ⟨hchk, applyOp_of_error hchk⟩

theorem c2_witness :
    set_attribute_checked [⟨NodeType.Element, "", "a", [], "", []⟩] 0
      (Attribute.new (QName.Id "" AttributeId.Fill) (AttributeValue.FuncLink 0)) =
      some (Except.error Error.ElementCrosslink) ∧
    applyOp [⟨NodeType.Element, "", "a", [], "", []⟩]
      (Op.set 0 (Attribute.new (QName.Id "" AttributeId.Fill) (AttributeValue.FuncLink 0))) =
      some [⟨NodeType.Element, "", "a", [], "", []⟩] :=
  c2_no_self_link (by decide) (Or.inr rfl)

theorem c2_counterexample :
    set_attribute_checked [⟨NodeType.Element, "", "", [], "", []⟩] 0
      (Attribute.new (QName.Id "" AttributeId.Fill) (AttributeValue.FuncLink 0)) =
      some (Except.error Error.ElementMustHaveAnId) ∧
    set_attribute_checked [⟨NodeType.Element, "", "", [], "", []⟩] 0
      (Attribute.new (QName.Id "" AttributeId.Fill) (AttributeValue.FuncLink 0)) ≠
      some (Except.error Error.ElementCrosslink) := by
  decide

/-- C3 (amended): if node `b` already appears in `self`'s `linked_nodes`
and `b`'s id is NON-EMPTY, then setting a link attribute on `self`
targeting `b` fails with `ElementCrosslink` and leaves the document
unchanged. (The unamended claim fails when `b`'s id is empty — a node with
an empty id can hold a link and hence appear in `linked_nodes` — because
the empty-id check fires first, see the counterexample.) -/
theorem c3_no_mutual_cycle {d : Doc} {self b : Nat} {a : Attribute}
    (hidb : (getN d b).id ≠ "")
    (hmem : b ∈ (getN d self).linked_nodes)
    (hval : a.value = AttributeValue.Link b ∨ a.value = AttributeValue.FuncLink b) :
    set_attribute_checked d self a = some (Except.error Error.ElementCrosslink) ∧
    applyOp d (Op.set self a) = some d := by
  have hchk : set_attribute_checked d self a = some (Except.error Error.ElementCrosslink) := by
    rw [set_attribute_checked_link hval]
    unfold set_link_attribute
    rw [if_neg (fun h => hidb (beq_iff_eq.mp h))]
    by_cases h2 : ((getN d self).id == (getN d b).id) = true
    · rw [if_pos h2]
    · rw [if_neg h2, if_pos hmem]
  exact ⟨hchk, applyOp_of_error hchk⟩

theorem c3_witness :
    set_attribute_checked
      [⟨NodeType.Element, "", "a", [], "", [1]⟩,
       ⟨NodeType.Element, "", "b",
        [Attribute.new (QName.Id "" AttributeId.Fill) (AttributeValue.FuncLink 0)], "", []⟩] 0
      (Attribute.new (QName.Id "" AttributeId.Stroke) (AttributeValue.FuncLink 1)) =
      some (Except.error Error.ElementCrosslink) ∧
    applyOp
      [⟨NodeType.Element, "", "a", [], "", [1]⟩,
       ⟨NodeType.Element, "", "b",
        [Attribute.new (QName.Id "" AttributeId.Fill) (AttributeValue.FuncLink 0)], "", []⟩]
      (Op.set 0 (Attribute.new (QName.Id "" AttributeId.Stroke) (AttributeValue.FuncLink 1))) =
      some
      [⟨NodeType.Element, "", "a", [], "", [1]⟩,
       ⟨NodeType.Element, "", "b",
        [Attribute.new (QName.Id "" AttributeId.Fill) (AttributeValue.FuncLink 0)], "", []⟩] :=
  c3_no_mutual_cycle (by decide) (by decide) (Or.inr rfl)

theorem c3_counterexample :
    set_attribute_checked
      [⟨NodeType.Element, "", "a", [], "", [1]⟩,
       ⟨NodeType.Element, "", "",
        [Attribute.new (QName.Id "" AttributeId.Fill) (AttributeValue.FuncLink 0)], "", []⟩] 0
      (Attribute.new (QName.Id "" AttributeId.Stroke) (AttributeValue.FuncLink 1)) =
      some (Except.error Error.ElementMustHaveAnId) ∧
    set_attribute_checked
      [⟨NodeType.Element, "", "a", [], "", [1]⟩,
       ⟨NodeType.Element, "", "",
        [Attribute.new (QName.Id "" AttributeId.Fill) (AttributeValue.FuncLink 0)], "", []⟩] 0
      (Attribute.new (QName.Id "" AttributeId.Stroke) (AttributeValue.FuncLink 1)) ≠
      some (Except.error Error.ElementCrosslink) := by
  decide

/-- C4: setting a link attribute whose target node has an empty id fails
with `ElementMustHaveAnId` — before any crosslink check, in any state —
and leaves the document unchanged. -/
theorem c4_empty_id_target {d : Doc} {self t : Nat} {a : Attribute}
    (hid : (getN d t).id = "")
    (hval : a.value = AttributeValue.Link t ∨ a.value = AttributeValue.FuncLink t) :
    set_attribute_checked d self a = some (Except.error Error.ElementMustHaveAnId) ∧
    applyOp d (Op.set self a) = some d := by
  have hchk : set_attribute_checked d self a = some (Except.error Error.ElementMustHaveAnId) := by
    rw [set_attribute_checked_link hval]
    unfold set_link_attribute
    rw [if_pos (beq_iff_eq.mpr hid)]
  exact ⟨hchk, applyOp_of_error hchk⟩

theorem c4_witness :
    set_attribute_checked
      [⟨NodeType.Element, "", "a", [], "", []⟩, ⟨NodeType.Element, "", "", [], "", []⟩] 0
      (Attribute.new (QName.Id "" AttributeId.Fill) (AttributeValue.Link 1)) =
      some (Except.error Error.ElementMustHaveAnId) ∧
    applyOp
      [⟨NodeType.Element, "", "a", [], "", []⟩, ⟨NodeType.Element, "", "", [], "", []⟩]
      (Op.set 0 (Attribute.new (QName.Id "" AttributeId.Fill) (AttributeValue.Link 1))) =
      some [⟨NodeType.Element, "", "a", [], "", []⟩, ⟨NodeType.Element, "", "", [], "", []⟩] :=
  c4_empty_id_target (by decide) (Or.inl rfl)

/-- C10: the crosslink rejection compares id strings, not node identity:
when a distinct target node `b` has a non-empty id equal to `self`'s id,
setting a link attribute on `self` targeting `b` fails with
`ElementCrosslink`, even though `b` is not `self` and holds no link to
`self`, and the document is unchanged. -/
theorem c10_crosslink_by_id {d : Doc} {self b : Nat} {a : Attribute}
    (hne : b ≠ self)
    (hidb : (getN d b).id ≠ "")
    (hideq : (getN d b).id = (getN d self).id)
    (hnolink : ∀ x ∈ (getN d b).attributes, isLinkTo x.value self = false)
    (hval : a.value = AttributeValue.Link b ∨ a.value = AttributeValue.FuncLink b) :
    set_attribute_checked d self a = some (Except.error Error.ElementCrosslink) ∧
    applyOp d (Op.set self a) = some d := by
  have hchk : set_attribute_checked d self a = some (Except.error Error.ElementCrosslink) := by
    rw [set_attribute_checked_link hval]
    unfold set_link_attribute
    rw [if_neg (fun h => hidb (beq_iff_eq.mp h)), if_pos (beq_iff_eq.mpr hideq.symm)]
  exact ⟨hchk, applyOp_of_error hchk⟩

theorem c10_witness :
    set_attribute_checked
      [⟨NodeType.Element, "", "x", [], "", []⟩, ⟨NodeType.Element, "", "x", [], "", []⟩] 0
      (Attribute.new (QName.Id "" AttributeId.Fill) (AttributeValue.FuncLink 1)) =
      some (Except.error Error.ElementCrosslink) ∧
    applyOp
      [⟨NodeType.Element, "", "x", [], "", []⟩, ⟨NodeType.Element, "", "x", [], "", []⟩]
      (Op.set 0 (Attribute.new (QName.Id "" AttributeId.Fill) (AttributeValue.FuncLink 1))) =
      some [⟨NodeType.Element, "", "x", [], "", []⟩, ⟨NodeType.Element, "", "x", [], "", []⟩] :=
  c10_crosslink_by_id (b := 1) (by decide) (by decide) (by decide)
    (fun x hx => absurd hx (List.not_mem_nil x)) (Or.inr rfl)

/-- C1 (amended): the back-reference invariant is preserved in its counting
form: starting from a state where attribute names are unique per node, link
targets are nodes of the document, and — for all nodes `a`, `b` — the number
of occurrences of `a` in `b`'s `linked_nodes` equals the number of
attributes of `a` holding a `Link`/`FuncLink` to `b`, every sequence of
`set_attribute_checked` and `remove_attribute` operations runs without
panicking, preserves that state, and in particular afterwards `b`'s
`linked_nodes` contains `a` iff some attribute of `a` holds a link to `b`.
(The unamended claim — preservation assuming only the membership iff —
fails: two same-target link attributes backed by a single `linked_nodes`
entry satisfy the iff, and one removal then strands the other attribute;
see the counterexample.) -/
theorem c1_link_invariant {d : Doc} (hinv : docInv d) (ops : List Op) :
    ∃ d2, applyOps d ops = some d2 ∧ docInv d2 ∧ linkMemInv d2 := by
  obtain ⟨d2, heq, hinv2, _⟩ := applyOps_pres hinv ops
  exact ⟨d2, heq, hinv2, linkMemInv_of_docInv hinv2⟩

theorem c1_witness :
    ∃ d2,
      applyOps [⟨NodeType.Element, "", "a", [], "", []⟩, ⟨NodeType.Element, "", "b", [], "", []⟩]
        [Op.set 1 (Attribute.new (QName.Id "" AttributeId.Fill) (AttributeValue.FuncLink 0)),
         Op.set 1 (Attribute.new (QName.Id "" AttributeId.Fill) (AttributeValue.Number 3)),
         Op.remove 1 (QName.Id "" AttributeId.Fill)] = some d2 ∧
      docInv d2 ∧ linkMemInv d2 :=
  c1_link_invariant (by decide) _

theorem c1_counterexample :
    linkMemInv
      [⟨NodeType.Element, "", "a",
        [Attribute.new (QName.Id "" AttributeId.Fill) (AttributeValue.FuncLink 1),
         Attribute.new (QName.Id "" AttributeId.Stroke) (AttributeValue.FuncLink 1)], "", []⟩,
       ⟨NodeType.Element, "", "b", [], "", [0]⟩] ∧
    ∃ d2,
      applyOps
        [⟨NodeType.Element, "", "a",
          [Attribute.new (QName.Id "" AttributeId.Fill) (AttributeValue.FuncLink 1),
           Attribute.new (QName.Id "" AttributeId.Stroke) (AttributeValue.FuncLink 1)], "", []⟩,
         ⟨NodeType.Element, "", "b", [], "", [0]⟩]
        [Op.remove 0 (QName.Id "" AttributeId.Fill)] = some d2 ∧
      ¬ linkMemInv d2 := by
  decide

theorem set_attribute_checked_of_not_link {d : Doc} {self : Nat} {a : Attribute}
    (h : isLinkValue a.value = false) :
    set_attribute_checked d self a = (set_simple_attribute d self a).map Except.ok := by
  unfold set_attribute_checked
  cases hv : a.value <;> first
    | rfl
    | (rw [isLinkValue, hv] at h; simp [linkTarget] at h)

/-- C5: in a document satisfying the back-reference invariant, overwriting
a link attribute of node `self` (named `a.name`, currently holding a
`Link`/`FuncLink` to node `b`) with a non-link value succeeds, and
afterwards `self` occurs in `b`'s `linked_nodes` exactly one time fewer
than before. -/
theorem c5_unlink_on_overwrite {d : Doc} {self b : Nat} {a : Attribute} {v : AttributeValue}
    (hinv : docInv d)
    (hget : attrsGetValue (getN d self).attributes a.name = some v)
    (hvt : linkTarget v = some b)
    (hnl : isLinkValue a.value = false) :
    ∃ d2, set_attribute_checked d self a = some (Except.ok d2) ∧
      (getN d2 b).linked_nodes.count self + 1 = (getN d b).linked_nodes.count self := by
  obtain ⟨d1, heq, hinv1, hlen1, hnc1, hat1, hcnt1⟩ := remove_pres hinv self a.name
  have hdelta := hcnt1 v b hget hvt
  rw [set_attribute_checked_of_not_link hnl]
  unfold set_simple_attribute
  rw [heq]
  refine ⟨_, rfl, ?_⟩
  beta_reduce
  rw [(attrs_update_facts d1 self (attrsInsert (getN d1 self).attributes a)).2 b]
  exact hdelta

theorem c5_witness :
    ∃ d2,
      set_attribute_checked
        [⟨NodeType.Element, "", "lg1", [], "", [1]⟩,
         ⟨NodeType.Element, "", "rect1",
          [Attribute.new (QName.Id "" AttributeId.Fill) (AttributeValue.FuncLink 0)], "", []⟩] 1
        (Attribute.new (QName.Id "" AttributeId.Fill) (AttributeValue.Number 5)) =
        some (Except.ok d2) ∧
      (getN d2 0).linked_nodes.count 1 + 1 =
        (getN [⟨NodeType.Element, "", "lg1", [], "", [1]⟩,
               ⟨NodeType.Element, "", "rect1",
                [Attribute.new (QName.Id "" AttributeId.Fill) (AttributeValue.FuncLink 0)],
                "", []⟩] 0).linked_nodes.count 1 :=
  c5_unlink_on_overwrite (v := AttributeValue.FuncLink 0) (by decide) (by decide) rfl rfl

theorem hasId_iff (n : QName) (pfx : String) (aid : AttributeId) :
    n.hasId pfx aid = true ↔ n = QName.Id pfx aid := by
  cases n with
  | Id p i =>
    unfold QName.hasId
    rw [Bool.and_eq_true, beq_iff_eq, beq_iff_eq]
    constructor
    · rintro ⟨rfl, rfl⟩
      rfl
    · intro h
      injection h with h1 h2
      exact ⟨h1, h2⟩
  | Name p m =>
    unfold QName.hasId
    constructor
    · intro h
      cases h
    · intro h
      cases h

theorem remove_attribute_length {d d1 : Doc} {self : Nat} {n : QName}
    (h : remove_attribute d self n = some d1) : d1.length = d.length := by
  rw [remove_attribute_reduce] at h
  by_cases hc : attrsContains (getN d self).attributes n = true
  · rw [if_pos hc] at h
    cases hb : (attrsGetValue (getN d self).attributes n).bind linkTarget with
    | none =>
      rw [hb] at h
      have h2 : some (setN d self { getN d self with
          attributes := attrsRemoveImpl (getN d self).attributes n }) = some d1 := h
      injection h2 with h2
      rw [← h2, length_setN]
    | some t =>
      rw [hb] at h
      have h2 : Option.map (fun d1 => setN d1 self { getN d1 self with
          attributes := attrsRemoveImpl (getN d1 self).attributes n })
        (if self ∈ (getN d t).linked_nodes then
          some (setN d t { getN d t with
            linked_nodes := (getN d t).linked_nodes.erase self })
        else none) = some d1 := h
      by_cases hm : self ∈ (getN d t).linked_nodes
      · rw [if_pos hm, Option.map_some'] at h2
        injection h2 with h2
        rw [← h2, length_setN, length_setN]
      · rw [if_neg hm] at h2
        cases h2
  · rw [if_neg hc] at h
    injection h with h2
    rw [← h2]

/-- C6: attaching a node reference as an attribute value yields the `Link`
variant exactly when the name is the `href` identifier under the `xlink`
prefix, and the `FuncLink` variant for every other name — both for the
`From (N, Node)` conversion and for the attribute that
`set_link_attribute` actually stores (it ends up as the last attribute of
the mutated node). -/
theorem c6_link_variant_selection :
    (∀ n t, ((attributeFromNode n t).value = AttributeValue.Link t ↔
        n = QName.Id "xlink" AttributeId.Href) ∧
      (n ≠ QName.Id "xlink" AttributeId.Href →
        (attributeFromNode n t).value = AttributeValue.FuncLink t)) ∧
    (∀ d self n node d1,
      (((getN d node).id == "") = false) →
      (((getN d self).id == (getN d node).id) = false) →
      node ∉ (getN d self).linked_nodes →
      remove_attribute d self n = some d1 →
      self < d.length →
      ∃ d3, set_link_attribute d self n node = some (Except.ok d3) ∧
        (getN d3 self).attributes.getLast? = some (attributeFromNode n node)) := by
  constructor
  · intro n t
    constructor
    · rw [← hasId_iff n "xlink" AttributeId.Href]
      unfold attributeFromNode
      by_cases h : n.hasId "xlink" AttributeId.Href = true
      · rw [if_pos h]
        exact ⟨fun _ => h, fun _ => rfl⟩
      · rw [if_neg h]
        constructor
        · intro hcon
          exact AttributeValue.noConfusion hcon
        · intro hh
          exact absurd hh h
    · intro hne
      unfold attributeFromNode
      rw [if_neg (fun hh => hne ((hasId_iff n "xlink" AttributeId.Href).mp hh))]
      rfl
  · intro d self n node d1 h1 h2 h3 hrem hself
    have hself1 : self < d1.length := by
      rw [remove_attribute_length hrem]
      exact hself
    unfold set_link_attribute
    rw [if_neg (by simp [h1]), if_neg (by simp [h2]), if_neg h3, hrem]
    unfold attributeFromNode
    by_cases h4 : n.hasId "xlink" AttributeId.Href = true
    · rw [if_pos h4]
      refine ⟨_, rfl, ?_⟩
      show (getN (setN (setN d1 self { getN d1 self with
          attributes := attrsInsertImpl (getN d1 self).attributes
            (Attribute.new n (AttributeValue.Link node)) }) node
        { getN (setN d1 self { getN d1 self with
            attributes := attrsInsertImpl (getN d1 self).attributes
              (Attribute.new n (AttributeValue.Link node)) }) node with
          linked_nodes := (getN (setN d1 self { getN d1 self with
            attributes := attrsInsertImpl (getN d1 self).attributes
              (Attribute.new n (AttributeValue.Link node)) }) node).linked_nodes ++ [self] })
        self).attributes.getLast? = some (Attribute.new n (AttributeValue.Link node))
      rw [(ln_update_facts _ node _).2 self,
        (attrs_update_facts d1 self
          (attrsInsertImpl (getN d1 self).attributes
            (Attribute.new n (AttributeValue.Link node)))).1 self]
      rw [if_pos (⟨rfl, hself1⟩ : self = self ∧ self < d1.length), attrsInsertImpl_eq]
      exact List.getLast?_concat _
    · rw [if_neg h4]
      refine ⟨_, rfl, ?_⟩
      show (getN (setN (setN d1 self { getN d1 self with
          attributes := attrsInsertImpl (getN d1 self).attributes
            (Attribute.new n (AttributeValue.FuncLink node)) }) node
        { getN (setN d1 self { getN d1 self with
            attributes := attrsInsertImpl (getN d1 self).attributes
              (Attribute.new n (AttributeValue.FuncLink node)) }) node with
          linked_nodes := (getN (setN d1 self { getN d1 self with
            attributes := attrsInsertImpl (getN d1 self).attributes
              (Attribute.new n (AttributeValue.FuncLink node)) }) node).linked_nodes ++ [self] })
        self).attributes.getLast? = some (Attribute.new n (AttributeValue.FuncLink node))
      rw [(ln_update_facts _ node _).2 self,
        (attrs_update_facts d1 self
          (attrsInsertImpl (getN d1 self).attributes
            (Attribute.new n (AttributeValue.FuncLink node)))).1 self]
      rw [if_pos (⟨rfl, hself1⟩ : self = self ∧ self < d1.length), attrsInsertImpl_eq]
      exact List.getLast?_concat _

theorem c6_witness :
    ((attributeFromNode (QName.Id "xlink" AttributeId.Href) 7).value =
        AttributeValue.Link 7 ↔
      QName.Id "xlink" AttributeId.Href = QName.Id "xlink" AttributeId.Href) ∧
    (attributeFromNode (QName.Id "" AttributeId.Fill) 7).value =
      AttributeValue.FuncLink 7 ∧
    ∃ d3,
      set_link_attribute
        [⟨NodeType.Element, "", "a", [], "", []⟩, ⟨NodeType.Element, "", "b", [], "", []⟩]
        0 (QName.Id "" AttributeId.Fill) 1 = some (Except.ok d3) ∧
      (getN d3 0).attributes.getLast? =
        some (attributeFromNode (QName.Id "" AttributeId.Fill) 1) :=
  ⟨(c6_link_variant_selection.1 (QName.Id "xlink" AttributeId.Href) 7).1,
   (c6_link_variant_selection.1 (QName.Id "" AttributeId.Fill) 7).2 (by decide),
   c6_link_variant_selection.2
     [⟨NodeType.Element, "", "a", [], "", []⟩, ⟨NodeType.Element, "", "b", [], "", []⟩]
     0 (QName.Id "" AttributeId.Fill) 1
     [⟨NodeType.Element, "", "a", [], "", []⟩, ⟨NodeType.Element, "", "b", [], "", []⟩]
     (by decide) (by decide) (by decide) (by decide) (by decide)⟩

/-- C7: for an identifier with a defined format default,
`Attribute::default` builds an attribute on which `check_is_default` is
true; for an identifier without a default it returns nothing; and on an
attribute whose name is a custom string, `check_is_default` is false. -/
theorem c7_default_idempotent (aid : AttributeId) :
    (∀ v, AttributeValue.default_value aid = some v →
      (Attribute.default aid).map Attribute.check_is_default = some true) ∧
    (AttributeValue.default_value aid = none → Attribute.default aid = none) ∧
    (∀ pfx nm v vis, Attribute.check_is_default ⟨QName.Name pfx nm, v, vis⟩ = false) := by
  refine ⟨?_, ?_, ?_⟩
  · intro v hv
    unfold Attribute.default
    rw [hv, Option.map_some']
    unfold Attribute.check_is_default
    show some (match AttributeValue.default_value aid with
      | some w => v == w
      | none => false) = some true
    rw [hv]
    show some (v == v) = some true
    rw [beq_self_eq_true]
  · intro hv
    unfold Attribute.default
    rw [hv]
  · intro pfx nm v vis
    rfl

theorem c7_witness :
    (Attribute.default AttributeId.Fill).map Attribute.check_is_default = some true ∧
    Attribute.default AttributeId.Href = none ∧
    Attribute.check_is_default
      ⟨QName.Name "" "data-custom", AttributeValue.PredefValue "black", true⟩ = false :=
  ⟨(c7_default_idempotent AttributeId.Fill).1 (AttributeValue.PredefValue "black") rfl,
   (c7_default_idempotent AttributeId.Href).2.1 rfl,
   (c7_default_idempotent AttributeId.Fill).2.2 "" "data-custom"
     (AttributeValue.PredefValue "black") true⟩

/-- C8: the writer serializes the unprefixed `unicode` attribute holding a
`String` through the dedicated escape path: the output is
`unicode=`, the configured quote, the escaped value and the closing quote,
where a value beginning with a literal `&#` is passed through unchanged
and any other value is emitted character by character as `&#x<hex>;` with
the lowercase hexadecimal code point. -/
theorem c8_unicode_escaping (s : String) (opt : WriteOptions) :
    Attribute.write_buf_opt ⟨QName.Id "" AttributeId.Unicode, AttributeValue.String s, true⟩ opt =
      "unicode=" ++ write_quote opt ++ write_escaped s ++ write_quote opt ∧
    (startsWithAmpHash s = true → write_escaped s = s) ∧
    (startsWithAmpHash s = false →
      write_escaped s =
        String.join (s.data.map (fun c => "&#x" ++ toHexLower c.toNat ++ ";"))) := by
  refine ⟨?_, ?_, ?_⟩
  · show "" ++ "unicode" ++ "=" ++ write_quote opt ++ write_escaped s ++ write_quote opt =
      "unicode=" ++ write_quote opt ++ write_escaped s ++ write_quote opt
    rw [show ("" ++ "unicode" ++ "=" : String) = "unicode=" from rfl]
  · intro h
    unfold write_escaped
    rw [if_pos h]
  · intro h
    unfold write_escaped
    rw [if_neg (by rw [h]; exact Bool.false_ne_true)]

theorem c8_witness :
    Attribute.write_buf_opt
      ⟨QName.Id "" AttributeId.Unicode, AttributeValue.String "&#38;", true⟩
      ⟨true, false⟩ = "unicode='&#38;'" ∧
    Attribute.write_buf_opt
      ⟨QName.Id "" AttributeId.Unicode, AttributeValue.String "A z", true⟩
      ⟨false, false⟩ = "unicode=\"&#x41;&#x20;&#x7a;\"" := by
  constructor
  · rw [(c8_unicode_escaping "&#38;" ⟨true, false⟩).1,
      (c8_unicode_escaping "&#38;" ⟨true, false⟩).2.1 (by decide)]
    decide
  · rw [(c8_unicode_escaping "A z" ⟨false, false⟩).1,
      (c8_unicode_escaping "A z" ⟨false, false⟩).2.2 (by decide)]
    decide

/-- C9: under the default collapse mode, a text node whose content becomes
empty after whitespace collapsing and boundary trimming is dropped by the
normalization pass, and the then childless `text` element serializes in
self-closing form: the parsed fragment `<text> </text>` re-serializes as
`<text/>`. -/
theorem c9_empty_after_trim (s : String)
    (h : trimTrailingSpaces (trimLeadingSpaces (collapseWhitespace s)) = "") :
    normalizeNode false (XNode.element "text" [] [XNode.textNode s]) =
      XNode.element "text" [] [] ∧
    serializeNode (normalizeNode false (XNode.element "text" [] [XNode.textNode s])) =
      "<text/>" := by
  have hn : normChildren false true [XNode.textNode s] = [] := by
    show (if ((trimTrailingSpaces (trimLeadingSpaces (collapseWhitespace s)) == "") = true)
        then normChildren false false []
        else XNode.textNode (trimTrailingSpaces (trimLeadingSpaces (collapseWhitespace s))) ::
          normChildren false false []) = []
    rw [h]
    rfl
  have he : normalizeNode false (XNode.element "text" [] [XNode.textNode s]) =
      XNode.element "text" [] [] := by
    show XNode.element "text" [] (normChildren false true [XNode.textNode s]) =
      XNode.element "text" [] []
    rw [hn]
  refine ⟨he, ?_⟩
  rw [he]
  rfl

theorem c9_witness :
    normalizeNode false (XNode.element "text" [] [XNode.textNode " "]) =
      XNode.element "text" [] [] ∧
    serializeNode (normalizeNode false (XNode.element "text" [] [XNode.textNode " "])) =
      "<text/>" :=
  c9_empty_after_trim " " rfl
